import Mathlib

/-!
Verification development for the tamper-evident ledger subsystem
(`veil/ledger.py`): canonical block hashing, chain construction
(`append_ledger_entry`), verification (`verify_ledger`) and legacy
migration with quarantine (`migrate_ledger_in_place`).

Modelling conventions (shallow embedding):
* JSON values (the result of `json.loads`) are the inductive `JVal`.
  Python distinguishes `int` and `float`; so does the model (`vint` /
  `vfloat`).  Python floats are idealized as rationals (`Rat`); the
  special values `inf`/`nan` and binary rounding are not modelled.
* `hashlib.sha256(json.dumps(block, sort_keys=True))` is idealized as
  an injective serialization of the canonical field tuple (collision
  resistance of SHA-256 is assumed, which is exactly the property the
  ledger design relies on).  The serialization is `hashBlock`, and its
  injectivity is proved (`hashBlock_injective`).
* File stores are the inductive `Store`: absent file, syntactically
  malformed content, or a parsed JSON value.  Atomic-write mechanics
  are below the abstraction level of this model; a `save` simply
  replaces the store content.
* A Python exception escaping a function is an `Except.error`.
-/

set_option maxHeartbeats 2000000
set_option maxRecDepth 4000

namespace Veil

/-- JSON-like values as produced by Python `json.loads`: null, booleans,
integers, floats (idealized as rationals), strings, arrays, objects
(association lists in insertion order, unique keys). -/
inductive JVal where
  | vnull  : JVal
  | vbool  : Bool → JVal
  | vint   : Int → JVal
  | vfloat : Rat → JVal
  | vstr   : String → JVal
  | varr   : List JVal → JVal
  | vobj   : List (String × JVal) → JVal

open JVal

/-- Python `block[k]` / `k in block` lookup on a JSON object: the raw
stored value (a stored JSON `null` is returned as `vnull`). -/
def dget (f : List (String × JVal)) (k : String) : Option JVal :=
  (f.find? (fun kv => kv.1 == k)).map (fun kv => kv.2)

/-- Python `k in block`. -/
def hasKey (f : List (String × JVal)) (k : String) : Bool :=
  (dget f k).isSome

/-- Python `block.get(k)`: a missing key and a stored JSON `null` both
yield the Python object `None`, modelled as `none`. -/
def pyGet (f : List (String × JVal)) (k : String) : Option JVal :=
  match dget f k with
  | some JVal.vnull => none
  | r => r

/-- Python dict assignment `d[k] = v`: overwrite in place if the key
exists, otherwise append (insertion order). -/
def dset (f : List (String × JVal)) (k : String) (v : JVal) : List (String × JVal) :=
  if hasKey f k then f.map (fun kv => if kv.1 == k then (kv.1, v) else kv)
  else f ++ [(k, v)]

/-- Python truthiness of a JSON value. -/
def pyTruthy : JVal → Bool
  | vnull => false
  | vbool b => b
  | vint n => n != 0
  | vfloat q => q != 0
  | vstr s => s ≠ ""
  | varr l => !l.isEmpty
  | vobj f => !f.isEmpty

/-- Decimal rendering of an idealized float (used by `str()` on float
values).  Integral values render as `n.0` like Python; terminating
decimal expansions are rendered exactly; non-terminating ones (not
representable as binary floats anyway) fall back to the raw fraction. -/
def floatRepr (q : Rat) : String :=
  if q.den = 1 then toString q.num ++ ".0"
  else
    match (List.range 400).find? (fun m => q.den ∣ 10 ^ m) with
    | some m =>
        let scaled := q.num.natAbs * 10 ^ m / q.den
        let s := toString scaled
        let s := String.mk (List.replicate (m + 1 - s.length) '0') ++ s
        (if q.num < 0 then "-" else "") ++
          (s.take (s.length - m) ++ "." ++ s.drop (s.length - m))
    | none => toString q

mutual
/-- Python `repr()` of a JSON value (string quoting approximated with
single quotes; escape sequences not modelled). -/
def pyRepr : JVal → String
  | vnull => "None"
  | vbool b => if b then "True" else "False"
  | vint n => toString n
  | vfloat q => floatRepr q
  | vstr s => "'" ++ s ++ "'"
  | varr l => "[" ++ String.intercalate ", " (pyReprList l) ++ "]"
  | vobj f => "\x7b" ++ String.intercalate ", " (pyReprObj f) ++ "\x7d"

def pyReprList : List JVal → List String
  | [] => []
  | v :: vs => pyRepr v :: pyReprList vs

def pyReprObj : List (String × JVal) → List String
  | [] => []
  | (k, v) :: fs => ("'" ++ k ++ "': " ++ pyRepr v) :: pyReprObj fs
end

/-- Python `str()` of a JSON value: identity on strings, `repr`-like on
everything else. -/
def pyStr : JVal → String
  | vstr s => s
  | v => pyRepr v

/-- Digits of a character list read as a decimal natural number; `none`
if empty or any character is not a digit. -/
def digitsToNat : List Char → Option Nat
  | [] => none
  | cs =>
    if cs.all Char.isDigit then
      some (cs.foldl (fun acc c => acc * 10 + (c.toNat - 48)) 0)
    else none

/-- Strip leading and trailing whitespace (Python `str.strip()`). -/
def trimChars (cs : List Char) : List Char :=
  ((cs.dropWhile Char.isWhitespace).reverse.dropWhile Char.isWhitespace).reverse

/-- Python `int(s)` on a string: optional sign, decimal digits only
(underscore separators not modelled). -/
def parsePyIntStr (s : String) : Option Int :=
  match trimChars s.data with
  | '+' :: rest => (digitsToNat rest).map (fun n => (n : Int))
  | '-' :: rest => (digitsToNat rest).map (fun n => -(n : Int))
  | rest => (digitsToNat rest).map (fun n => (n : Int))

/-- Mantissa/exponent split helpers for `float(s)`. -/
def splitOnDot (cs : List Char) : List Char × List Char × Nat :=
  match cs.splitOn '.' with
  | [ip] => (ip, [], 0)
  | [ip, fp] => (ip, fp, 1)
  | _ => ([], [], 2)

/-- Parse an unsigned decimal mantissa `digits[.digits]` as a rational. -/
def parseMantissa (cs : List Char) : Option Rat :=
  match splitOnDot cs with
  | (ip, _, 0) => (digitsToNat ip).map (fun n => (n : Rat))
  | (ip, fp, 1) =>
      if ip.isEmpty && fp.isEmpty then none
      else if (ip.all Char.isDigit) && (fp.all Char.isDigit) then
        some ((((digitsToNat (ip ++ fp)).getD 0 : Nat) : Rat) / (10 : Rat) ^ fp.length)
      else none
  | _ => none

/-- Python `float(s)` on a string: optional sign, decimal mantissa,
optional exponent (`inf`/`nan`/hex not modelled). -/
def parsePyFloatStr (s : String) : Option Rat :=
  let cs := trimChars s.data
  let (sgn, cs) :=
    match cs with
    | '+' :: rest => ((1 : Rat), rest)
    | '-' :: rest => ((-1 : Rat), rest)
    | rest => ((1 : Rat), rest)
  let applyExp : Rat → Int → Rat := fun m e =>
    if 0 ≤ e then m * (10 : Rat) ^ e.toNat else m / (10 : Rat) ^ (-e).toNat
  match cs.splitOn 'e' with
  | [mant] =>
      match cs.splitOn 'E' with
      | [_] => (parseMantissa mant).map (fun m => sgn * m)
      | [mant2, exp2] =>
          match parseMantissa mant2, parsePyIntStr (String.mk exp2) with
          | some m, some e => some (sgn * applyExp m e)
          | _, _ => none
      | _ => none
  | [mant, exp] =>
      match parseMantissa mant, parsePyIntStr (String.mk exp) with
      | some m, some e => some (sgn * applyExp m e)
      | _, _ => none
  | _ => none

/-- Truncation of a rational toward zero (Python `int(float)`). -/
def ratTrunc (q : Rat) : Int :=
  if q < 0 then -((-q).floor) else q.floor

/-- Python `float(v)` on a JSON value; `none` models the conversion
raising (`TypeError`/`ValueError`). -/
def pyFloat : JVal → Option Rat
  | vint n => some (n : Rat)
  | vfloat q => some q
  | vbool b => some (if b then 1 else 0)
  | vstr s => parsePyFloatStr s
  | _ => none

/-- Python `int(v)` on a JSON value; `none` models the conversion
raising. -/
def pyInt : JVal → Option Int
  | vint n => some n
  | vfloat q => some (ratTrunc q)
  | vbool b => some (if b then 1 else 0)
  | vstr s => parsePyIntStr s
  | _ => none

/-- Python `v == (n : int)` for a JSON value against an `int`. -/
def pyEqInt (v : JVal) (n : Int) : Bool :=
  match v with
  | vint m => m == n
  | vfloat q => q == (n : Rat)
  | vbool b => (if b then (1 : Int) else 0) == n
  | _ => false

/-- Python `v == (s : str)` for a JSON value against a string. -/
def pyEqStr (v : JVal) (s : String) : Bool :=
  match v with
  | vstr t => t == s
  | _ => false

/-! ## Canonical hashing (`_canonical_block_for_hash` / `hash_block`) -/

/-- The canonical field tuple used as hash input
(`_canonical_block_for_hash`): `index`, `organ`, `tier`, `timestamp`,
`prev_hash` — the block's own `hash` is excluded. -/
structure CBlock where
  index : Int
  organ : String
  tier : String
  timestamp : Rat
  prevHash : String
deriving DecidableEq

/-- Little-endian binary digits, fuel-based so that the definition is
structurally recursive (and hence kernel-computable). -/
def encBitsGo : Nat → Nat → List Char
  | _, 0 => []
  | 0, _ + 1 => []
  | fuel + 1, n + 1 =>
      (if (n + 1) % 2 = 1 then '1' else 'O') :: encBitsGo fuel ((n + 1) / 2)

/-- Little-endian binary digits of a natural number (no trailing
zeros, so the representation is unique). -/
def encBits (n : Nat) : List Char := encBitsGo n n

/-- Decoder inverse to `encBits`, used only to prove injectivity. -/
def decodeBits : List Char → Nat
  | [] => 0
  | c :: l => (if c = '1' then 1 else 0) + 2 * decodeBits l

/-- Binary encoding of a natural number followed by a `;` terminator. -/
def encNat (n : Nat) (rest : List Char) : List Char :=
  encBits n ++ ';' :: rest

/-- Length-prefixed encoding of a string. -/
def encStr (s : String) (rest : List Char) : List Char :=
  encNat s.length (s.data ++ rest)

/-- Sign-then-magnitude encoding of an integer. -/
def encInt (i : Int) (rest : List Char) : List Char :=
  (if i < 0 then '-' else '+') :: encNat i.natAbs rest

/-- Numerator/denominator encoding of a rational. -/
def encRat (q : Rat) (rest : List Char) : List Char :=
  encInt q.num (encNat q.den rest)

/-- Serialization of the canonical field tuple.  This models
`json.dumps(canonical, sort_keys=True)`; the exact byte format is
irrelevant to the design, only determinism and injectivity matter. -/
def encBlock (c : CBlock) (rest : List Char) : List Char :=
  encInt c.index (encStr c.organ (encStr c.tier (encRat c.timestamp (encStr c.prevHash rest))))

/-- Model of `hash_block`: the deterministic digest of the canonical fields.
SHA-256 is idealized as the (injective) serialization itself. -/
def hashBlock (c : CBlock) : String :=
  String.mk ('#' :: encBlock c [])

/-! ## Legacy field mapping (`_map_legacy_fields`) -/

/-- Python `a or b` on optional JSON values (`None` is falsy; a falsy
value yields the right operand; the rightmost operand is returned
as-is). -/
def legacyOr (a b : Option JVal) : Option JVal :=
  match a with
  | some v => if pyTruthy v then some v else b
  | none => b

/-- The `organ` half of `_map_legacy_fields`: the canonical key wins if
present (even with a falsy value); otherwise the fallback chain
`name or organ_name or service or module`. -/
def mapOrganRaw (f : List (String × JVal)) : Option JVal :=
  match pyGet f "organ" with
  | some v => some v
  | none => legacyOr (pyGet f "name") (legacyOr (pyGet f "organ_name")
      (legacyOr (pyGet f "service") (pyGet f "module")))

/-- The `tier` half of `_map_legacy_fields`: fallback chain
`priority or level or tier_name or class`. -/
def mapTierRaw (f : List (String × JVal)) : Option JVal :=
  match pyGet f "tier" with
  | some v => some v
  | none => legacyOr (pyGet f "priority") (legacyOr (pyGet f "level")
      (legacyOr (pyGet f "tier_name") (pyGet f "class")))

/-- Model of `_map_legacy_fields`: resolve `(organ, tier)` and normalize each
resolved value through `str()`. -/
def mapLegacyFields (f : List (String × JVal)) : Option String × Option String :=
  ((mapOrganRaw f).map pyStr, (mapTierRaw f).map pyStr)

/-- Model of `_has_minimum_fields_for_hash`: organ and tier resolvable, and the
`timestamp` and `prev_hash` keys present. -/
def hasMinimumFieldsForHash (f : List (String × JVal)) : Bool :=
  (mapLegacyFields f).1.isSome && (mapLegacyFields f).2.isSome &&
    hasKey f "timestamp" && hasKey f "prev_hash"

/-! ## Stores and IO helpers -/

/-- The content of one persisted JSON file: absent, present but not
syntactically valid JSON, or a parsed JSON value. -/
inductive Store where
  | absent : Store
  | malformed : Store
  | val : JVal → Store

/-- The three files the ledger subsystem touches. -/
structure FS where
  ledger : Store
  quarantine : Store
  backup : Store

/-- Model of `load_ledger`: absent file means an empty ledger; invalid JSON or a
non-list top level raises `RuntimeError` (the spec's
`MalformedLedgerError`), modelled as `Except.error`. -/
def loadLedger : Store → Except Unit (List JVal)
  | Store.absent => Except.ok []
  | Store.malformed => Except.error ()
  | Store.val (JVal.varr l) => Except.ok l
  | Store.val _ => Except.error ()

/-- Model of `_load_json_list`: absent, unparsable or non-list content silently
degrades to the empty list. -/
def loadJsonList : Store → List JVal
  | Store.val (JVal.varr l) => l
  | _ => []

/-! ## Append (`append_ledger_entry`) -/

/-- The fields of a stored block whose canonical content is `c` and
whose stored `hash` field is `h` (dict insertion order: the five
canonical fields, then `hash`, exactly as `append_ledger_entry` builds
it). -/
def blockFields (c : CBlock) (h : String) : List (String × JVal) :=
  [("index", JVal.vint c.index), ("organ", JVal.vstr c.organ),
    ("tier", JVal.vstr c.tier), ("timestamp", JVal.vfloat c.timestamp),
    ("prev_hash", JVal.vstr c.prevHash), ("hash", JVal.vstr h)]

/-- A stored block with canonical content `c` and stored hash `h`. -/
def blockWithHash (c : CBlock) (h : String) : JVal :=
  JVal.vobj (blockFields c h)

/-- A canonical stored block: stored hash equals the recomputed hash. -/
def blockOfC (c : CBlock) : JVal := blockWithHash c (hashBlock c)

/-- The `prev_hash` resolution of `append_ledger_entry`: a truthy stored
`hash` on the last block is used verbatim; otherwise the last block's
canonical hash is recomputed on the fly when its fields map and its
`index`/`timestamp` conversions succeed; any failure falls back to
`"GENESIS"` (the `try/except` swallows conversion errors). -/
def resolvePrevHash (ledger : List JVal) : String :=
  match ledger.getLast? with
  | none => "GENESIS"
  | some last =>
    match last with
    | JVal.vobj f =>
      match pyGet f "hash" with
      | some v =>
        if pyTruthy v then pyStr v else resolveFromLegacy ledger.length f
      | none => resolveFromLegacy ledger.length f
    | _ => "GENESIS"
where
  /-- The `elif isinstance(last, dict)` branch: recompute the canonical
  hash from mapped fields inside `try/except`. -/
  resolveFromLegacy (len : Nat) (f : List (String × JVal)) : String :=
    let om := mapLegacyFields f
    match (match dget f "index" with
           | none => some ((len : Int) - 1)
           | some v => pyInt v) with
    | none => "GENESIS"
    | some idx =>
      match dget f "timestamp" with
      | none => "GENESIS"
      | some tv =>
        match pyFloat tv with
        | none => "GENESIS"
        | some ts =>
          let ph := match dget f "prev_hash" with
                    | none => "GENESIS"
                    | some v => pyStr v
          match om with
          | (some organ, some tier) => hashBlock ⟨idx, organ, tier, ts, ph⟩
          | _ => "GENESIS"

/-- The block `append_ledger_entry` builds for the current chain:
`index = len(ledger)`, the given organ/tier, the ambient clock value
`ts` (`time.time()`), the resolved `prev_hash`, and its hash. -/
def appendBlock (ledger : List JVal) (organ tier : String) (ts : Rat) : JVal :=
  blockOfC ⟨(ledger.length : Int), organ, tier, ts, resolvePrevHash ledger⟩

/-- Model of `append_ledger_entry` on a loaded chain: the persisted result is the
old chain plus the one new block. -/
def appendLedgerEntry (ledger : List JVal) (organ tier : String) (ts : Rat) : List JVal :=
  ledger ++ [appendBlock ledger organ tier ts]

/-- Model of `append_ledger_entry` at the file-system level: load (propagating
`MalformedLedgerError`), build, persist. -/
def appendFS (organ tier : String) (ts : Rat) (fs : FS) : Except Unit FS :=
  match loadLedger fs.ledger with
  | Except.error e => Except.error e
  | Except.ok l =>
      Except.ok { fs with ledger := Store.val (JVal.varr (appendLedgerEntry l organ tier ts)) }

/-! ## Verify (`verify_ledger`) -/

/-- The diagnostic a failed verification prints. -/
inductive VReason where
  | notDict | missingFields | badTimestamp | brokenChain | tampered | missingHashStrict
deriving DecidableEq, Repr

/-- Outcome of `verify_ledger`.  `emptyLedger` and `valid` are the
`True` returns; `noVerifiable` is the all-legacy `False` return;
`fail i r` is a `False` return reporting position `i`; `raised i`
models the uncaught exception from `int(block.get("index", i))` on an
unconvertible stored `index`. -/
inductive VerifyResult where
  | emptyLedger : VerifyResult
  | valid : VerifyResult
  | noVerifiable : VerifyResult
  | fail : Nat → VReason → VerifyResult
  | raised : Nat → VerifyResult
deriving DecidableEq, Repr

/-- The boolean `verify_ledger` returns (a `raised` outcome returns
nothing; it is mapped to `false` here only for totality). -/
def VerifyResult.toBool : VerifyResult → Bool
  | VerifyResult.emptyLedger => true
  | VerifyResult.valid => true
  | _ => false

/-- The prefix scan of `verify_ledger` under `allow_legacy_prefix`:
the first position whose block is a dict with resolvable organ and
tier and a present `timestamp` key; non-dicts are skipped. -/
def findStart : List JVal → Nat → Option Nat
  | [], _ => none
  | b :: rest, i =>
    match b with
    | JVal.vobj f =>
      if (mapLegacyFields f).1.isSome && (mapLegacyFields f).2.isSome
          && hasKey f "timestamp"
      then some i else findStart rest (i + 1)
    | _ => findStart rest (i + 1)

/-- The main loop of `verify_ledger` from position `i`: `first` is true
exactly at `i == start`.  Checks in source order: dict shape, `index`
conversion, field mapping, timestamp conversion, chain link, stored
hash against recomputed hash. -/
def verifyLoop (strict : Bool) : Bool → Option String → Nat → List JVal → VerifyResult
  | _, _, _, [] => VerifyResult.valid
  | first, prevExp, i, b :: rest =>
    match b with
    | JVal.vobj f =>
      match (match dget f "index" with
             | none => some (i : Int)
             | some v => pyInt v) with
      | none => VerifyResult.raised i
      | some idx =>
        match mapLegacyFields f with
        | (some organ, some tier) =>
          match (dget f "timestamp").bind pyFloat with
          | none => VerifyResult.fail i VReason.badTimestamp
          | some ts =>
            let check : String → VerifyResult := fun ph =>
              let expected := hashBlock ⟨idx, organ, tier, ts, ph⟩
              match pyGet f "hash" with
              | some v =>
                  if pyStr v = expected then
                    verifyLoop strict false (some expected) (i + 1) rest
                  else VerifyResult.fail i VReason.tampered
              | none =>
                  if strict then VerifyResult.fail i VReason.missingHashStrict
                  else verifyLoop strict false (some expected) (i + 1) rest
            if first then
              check (match dget f "prev_hash" with
                     | none => "GENESIS"
                     | some v => pyStr v)
            else
              let ph := match dget f "prev_hash" with
                        | none => ""
                        | some v => pyStr v
              match prevExp with
              | none => VerifyResult.fail i VReason.brokenChain
              | some pe =>
                  if ph = pe then check ph
                  else VerifyResult.fail i VReason.brokenChain
        | _ => VerifyResult.fail i VReason.missingFields
    | _ => VerifyResult.fail i VReason.notDict

/-- Model of `verify_ledger` on a loaded chain. -/
def verifyLedger (ledger : List JVal) (strict : Bool) (allowLegacy : Bool) : VerifyResult :=
  if ledger.isEmpty then VerifyResult.emptyLedger
  else
    match (if allowLegacy then findStart ledger 0 else some 0) with
    | none => VerifyResult.noVerifiable
    | some s => verifyLoop strict true none s (ledger.drop s)

/-- Model of `verify_ledger` at the file-system level (read-only; a malformed
store propagates the load error). -/
def verifyFS (strict : Bool) (allowLegacy : Bool) (fs : FS) : Except Unit VerifyResult :=
  match loadLedger fs.ledger with
  | Except.error e => Except.error e
  | Except.ok l => Except.ok (verifyLedger l strict allowLegacy)

/-! ## Migrate (`migrate_ledger_in_place`) -/

/-- The quarantine record built for a non-dict block. -/
def quarantineNonDict (i : Nat) (b : JVal) : JVal :=
  JVal.vobj [("_reason", JVal.vstr "non-dict block"),
    ("_original_index", JVal.vint (i : Int)), ("value", b)]

/-- The quarantine record built for a dict that fails the
minimum-fields test: the original fields plus `_reason` and
`_original_index`. -/
def quarantineDict (i : Nat) (f : List (String × JVal)) : JVal :=
  JVal.vobj (dset (dset f "_reason" (JVal.vstr "missing organ/tier/timestamp"))
    "_original_index" (JVal.vint (i : Int)))

/-- The migration quarantine condition (first pass of
`migrate_ledger_in_place`): non-dict, or unresolvable organ/tier, or no
`timestamp` key.  (Note: unlike `_has_minimum_fields_for_hash`, the
migrator does not require `prev_hash`.) -/
def quarantineCond : JVal → Bool
  | JVal.vobj f =>
      (mapLegacyFields f).1.isNone || (mapLegacyFields f).2.isNone ||
        !hasKey f "timestamp"
  | _ => true

/-- First pass of `migrate_ledger_in_place`: partition into quarantined
records (with reason and original index) and migration candidates, both
in original order. -/
def migrateScan : List JVal → Nat → List JVal × List JVal
  | [], _ => ([], [])
  | b :: rest, i =>
    let (q, c) := migrateScan rest (i + 1)
    match b with
    | JVal.vobj f =>
        if (mapLegacyFields f).1.isNone || (mapLegacyFields f).2.isNone ||
            !hasKey f "timestamp"
        then (quarantineDict i f :: q, c)
        else (q, JVal.vobj f :: c)
    | _ => (quarantineNonDict i b :: q, c)

/-- Second pass of `migrate_ledger_in_place`: rewrite candidates into a
fresh canonical chain with dense indices and recomputed links, counting
a block as modified when any of its `index`, `prev_hash`, `hash`,
`organ` or `tier` stored values differs (Python `!=`).  The
`float(old_block["timestamp"])` conversion is outside any `try`, so an
unconvertible timestamp raises (`Except.error`). -/
def migrateRewrite : List JVal → Nat → String → Except Unit (List JVal × Nat)
  | [], _, _ => Except.ok ([], 0)
  | JVal.vobj f :: rest, idx, ph =>
    (match mapLegacyFields f with
     | (some organ, some tier) =>
       match (dget f "timestamp").bind pyFloat with
       | none => Except.error ()
       | some ts =>
         let c : CBlock := ⟨(idx : Int), organ, tier, ts, ph⟩
         let expected := hashBlock c
         let modifiedHere : Bool :=
           !(match dget f "index" with
             | some v => pyEqInt v (idx : Int)
             | none => false) ||
           !(match dget f "prev_hash" with
             | some v => pyEqStr v ph
             | none => false) ||
           !(match dget f "hash" with
             | some v => pyEqStr v expected
             | none => false) ||
           !(match dget f "organ" with
             | some v => pyEqStr v organ
             | none => false) ||
           !(match dget f "tier" with
             | some v => pyEqStr v tier
             | none => false)
         match migrateRewrite rest (idx + 1) expected with
         | Except.error e => Except.error e
         | Except.ok (tail, m) =>
             Except.ok (blockOfC c :: tail, (if modifiedHere then 1 else 0) + m)
     | _ => Except.error ())
  | _ :: _, _, _ => Except.error ()

/-- Model of `migrate_ledger_in_place` at the file-system level.  Returns the
state after execution together with the result; when the second pass
raises, the backup and quarantine writes that already happened are
kept, exactly as in the source. -/
def migrateFS (backup : Bool) (fs : FS) : FS × Except Unit (Nat × Nat × Nat) :=
  match loadLedger fs.ledger with
  | Except.error e => (fs, Except.error e)
  | Except.ok l =>
    if l.isEmpty then (fs, Except.ok (0, 0, 0))
    else
      let fs1 := if backup && !(match fs.ledger with | Store.absent => true | _ => false)
                 then { fs with backup := fs.ledger } else fs
      let (q, c) := migrateScan l 0
      let fs2 := if q.isEmpty then fs1
                 else { fs1 with
                        quarantine := Store.val (JVal.varr (loadJsonList fs1.quarantine ++ q)) }
      if c.isEmpty then (fs2, Except.ok (0, q.length, l.length))
      else
        match migrateRewrite c 0 "GENESIS" with
        | Except.error e => (fs2, Except.error e)
        | Except.ok (newLedger, modified) =>
            ({ fs2 with ledger := Store.val (JVal.varr newLedger) },
             Except.ok (modified, q.length, l.length))

/-! ## Canonical chains built through `append_ledger_entry` -/

/-- One append request: subject (organ), category (tier), and the
ambient clock value at the time of the call. -/
abbrev Entry := String × String × Rat

/-- The chain of canonical blocks produced by appending `es` onto a
chain whose next position is `k` and whose link anchor is `p`. -/
def chainBlocks (k : Nat) (p : String) : List Entry → List JVal
  | [] => []
  | (s, c, t) :: es =>
      blockOfC ⟨(k : Int), s, c, t, p⟩ ::
        chainBlocks (k + 1) (hashBlock ⟨(k : Int), s, c, t, p⟩) es

/-- The link anchor after appending `es` (the hash of the last block,
or `p` itself when `es` is empty). -/
def chainAnchor (k : Nat) (p : String) : List Entry → String
  | [] => p
  | (s, c, t) :: es => chainAnchor (k + 1) (hashBlock ⟨(k : Int), s, c, t, p⟩) es

/-- A chain built solely through `append_ledger_entry` from an empty
(or absent) ledger store. -/
def buildChain (es : List Entry) : List JVal :=
  es.foldl (fun l e => appendLedgerEntry l e.1 e.2.1 e.2.2) []

/-- The canonical content of the block at position `es₁.length` in a
chain built by appending `es₁`, then `(s, c, t)`: its link anchor is
the hash of the last block of the `es₁` prefix. -/
def origCB (es₁ : List Entry) (s c : String) (t : Rat) : CBlock :=
  ⟨(es₁.length : Int), s, c, t, chainAnchor 0 "GENESIS" es₁⟩

/-! ## Concrete scenarios and claim hypotheses -/

/-- The legacy record of the spec's legacy-prefix scenario:
`{"name": "audit_log", "priority": "P1", "timestamp": 1000.0}` with no
`hash`, `prev_hash`, `subject` or `category` fields. -/
def legacyAuditRecord : JVal :=
  JVal.vobj [("name", JVal.vstr "audit_log"), ("priority", JVal.vstr "P1"),
    ("timestamp", JVal.vfloat 1000)]

/-- The hash the verifier derives for the legacy record: mapped organ
`audit_log`, mapped tier `P1`, default index 0, default prev
`GENESIS`. -/
def legacyDerivedHash : String :=
  hashBlock ⟨(0 : Int), "audit_log", "P1", 1000, "GENESIS"⟩

/-- The two-record ledger of the scenario: the legacy record followed
by a canonical record whose `prev_hash` is the legacy record's derived
hash. -/
def ledgerLegacyScenario : List JVal :=
  [legacyAuditRecord, blockOfC ⟨(1 : Int), "guardian", "P0", 1001, legacyDerivedHash⟩]

/-- A single-block ledger that satisfies the dense/linked/hash-correct
hypothesis of the migration-idempotence claim while storing its subject
and category only under legacy key names (`name`/`priority`). -/
def legacyKeyedBlock : JVal :=
  JVal.vobj [("name", JVal.vstr "x"), ("priority", JVal.vstr "P1"),
    ("timestamp", JVal.vfloat 1), ("prev_hash", JVal.vstr "GENESIS"),
    ("index", JVal.vint 0), ("hash", JVal.vstr (hashBlock ⟨(0 : Int), "x", "P1", 1, "GENESIS"⟩))]

/-- The hypothesis of the migration-idempotence claim, as stated: every
block is an object with dense integer indices from 0, `prev_hash`
values correctly linked from `GENESIS`, and a stored hash equal to the
hash recomputed from the block's mapped canonical fields. -/
def denseLinkedHashOk (l : List JVal) : Bool :=
  go 0 "GENESIS" l
where
  go : Nat → String → List JVal → Bool
    | _, _, [] => true
    | k, plink, b :: rest =>
      match b with
      | JVal.vobj f =>
        (match dget f "index" with
         | some (JVal.vint m) => m == (k : Int)
         | _ => false) &&
        (match dget f "prev_hash" with
         | some (JVal.vstr p) => p == plink
         | _ => false) &&
        (match mapLegacyFields f, (dget f "timestamp").bind pyFloat, dget f "hash" with
         | (some o, some tr), some ts, some (JVal.vstr h) =>
             h == hashBlock ⟨(k : Int), o, tr, ts, plink⟩ && go (k + 1) h rest
         | _, _, _ => false)
      | _ => false

/-- The fallback hypothesis of the implicit append-safety claim: the
ledger's last record is not an object, or its stored `hash` is absent
or falsy and in addition its fields cannot be mapped, or its stored
`index` cannot be converted to an int, or its `timestamp` is absent or
cannot be converted to a float.  (A `prev_hash` conversion through
`str()` can never raise, so it contributes no case.) -/
def appendFallbackCond (l : List JVal) : Bool :=
  match l.getLast? with
  | none => false
  | some (JVal.vobj f) =>
      (match pyGet f "hash" with
       | none => true
       | some v => !pyTruthy v) &&
      ((mapLegacyFields f).1.isNone || (mapLegacyFields f).2.isNone ||
       (match dget f "index" with
        | none => false
        | some v => (pyInt v).isNone) ||
       (match dget f "timestamp" with
        | none => true
        | some v => (pyFloat v).isNone))
  | some _ => true

/-- The records newly quarantined by one run of
`migrate_ledger_in_place` on a given state (empty when the active
ledger is empty or fails to load). -/
def migrateNewQuarantine (fs : FS) : List JVal :=
  match loadLedger fs.ledger with
  | Except.error _ => []
  | Except.ok l => if l.isEmpty then [] else (migrateScan l 0).1

/-! ## Theorems: injectivity of the hash serialization -/

theorem decodeBits_encBitsGo : ∀ fuel n, n ≤ fuel → decodeBits (encBitsGo fuel n) = n := by
  intro fuel
  induction fuel with
  | zero =>
    intro n hn
    obtain rfl : n = 0 := Nat.le_zero.mp hn
    rfl
  | succ fuel ih =>
    intro n hn
    match n with
    | 0 => rfl
    | n + 1 =>
      rw [encBitsGo, decodeBits, ih ((n + 1) / 2) (by omega)]
      rcases Nat.mod_two_eq_zero_or_one (n + 1) with h | h <;> simp [h] <;> omega

theorem decodeBits_encBits (n : Nat) : decodeBits (encBits n) = n :=
  decodeBits_encBitsGo n n le_rfl

theorem sep_not_mem_encBitsGo : ∀ fuel n, ';' ∉ encBitsGo fuel n := by
  intro fuel
  induction fuel with
  | zero => intro n; cases n <;> simp [encBitsGo]
  | succ fuel ih =>
    intro n
    match n with
    | 0 => simp [encBitsGo]
    | n + 1 =>
      rw [encBitsGo]
      intro hmem
      rcases List.mem_cons.mp hmem with h | h
      · rcases Nat.mod_two_eq_zero_or_one (n + 1) with hp | hp <;> simp [hp] at h
      · exact ih ((n + 1) / 2) h

theorem sep_not_mem_encBits (n : Nat) : ';' ∉ encBits n :=
  sep_not_mem_encBitsGo n n

theorem append_sep_inj : ∀ (a b r r' : List Char), ';' ∉ a → ';' ∉ b →
    a ++ ';' :: r = b ++ ';' :: r' → a = b ∧ r = r' := by
  intro a
  induction a with
  | nil =>
    intro b r r' _ hb h
    cases b with
    | nil => simpa using h
    | cons y ys =>
      simp only [List.nil_append, List.cons_append, List.cons.injEq] at h
      exact absurd (List.mem_cons_self y ys) (h.1 ▸ hb)
  | cons x xs ih =>
    intro b r r' ha hb h
    cases b with
    | nil =>
      simp only [List.nil_append, List.cons_append, List.cons.injEq] at h
      exact absurd (List.mem_cons_self x xs) (h.1.symm ▸ ha)
    | cons y ys =>
      simp only [List.cons_append, List.cons.injEq] at h
      obtain ⟨hxy, hrest⟩ := h
      have hxs : ';' ∉ xs := fun hm => ha (List.mem_cons_of_mem x hm)
      have hys : ';' ∉ ys := fun hm => hb (List.mem_cons_of_mem y hm)
      obtain ⟨he, hr⟩ := ih ys r r' hxs hys hrest
      exact ⟨by rw [hxy, he], hr⟩

theorem encNat_inj {n m : Nat} {r r' : List Char}
    (h : encNat n r = encNat m r') : n = m ∧ r = r' := by
  obtain ⟨hb, hr⟩ := append_sep_inj (encBits n) (encBits m) r r'
    (sep_not_mem_encBits n) (sep_not_mem_encBits m) h
  refine ⟨?_, hr⟩
  have := congrArg decodeBits hb
  rwa [decodeBits_encBits, decodeBits_encBits] at this

theorem encStr_inj {s t : String} {r r' : List Char}
    (h : encStr s r = encStr t r') : s = t ∧ r = r' := by
  obtain ⟨hlen, hdat⟩ := encNat_inj h
  have hdl : s.data.length = t.data.length := hlen
  obtain ⟨hd, hr⟩ := List.append_inj hdat hdl
  exact ⟨congrArg String.mk hd, hr⟩

theorem encInt_inj {i j : Int} {r r' : List Char}
    (h : encInt i r = encInt j r') : i = j ∧ r = r' := by
  simp only [encInt, List.cons.injEq] at h
  obtain ⟨hsign, hrest⟩ := h
  obtain ⟨habs, hr⟩ := encNat_inj hrest
  refine ⟨?_, hr⟩
  by_cases hi : i < 0 <;> by_cases hj : j < 0 <;> simp [hi, hj] at hsign ⊢ <;> omega

theorem encRat_inj {p q : Rat} {r r' : List Char}
    (h : encRat p r = encRat q r') : p = q ∧ r = r' := by
  obtain ⟨hnum, hrest⟩ := encInt_inj h
  obtain ⟨hden, hr⟩ := encNat_inj hrest
  exact ⟨Rat.ext hnum hden, hr⟩

theorem encBlock_inj {c c' : CBlock} {r r' : List Char}
    (h : encBlock c r = encBlock c' r') : c = c' ∧ r = r' := by
  obtain ⟨h1, h2⟩ := encInt_inj h
  obtain ⟨h3, h4⟩ := encStr_inj h2
  obtain ⟨h5, h6⟩ := encStr_inj h4
  obtain ⟨h7, h8⟩ := encRat_inj h6
  obtain ⟨h9, h10⟩ := encStr_inj h8
  obtain ⟨i1, o1, t1, ts1, p1⟩ := c
  obtain ⟨i2, o2, t2, ts2, p2⟩ := c'
  simp_all

theorem hashBlock_injective {c c' : CBlock} (h : hashBlock c = hashBlock c') : c = c' := by
  have hl : '#' :: encBlock c [] = '#' :: encBlock c' [] := congrArg String.data h
  injection hl with h1 h2
  exact (encBlock_inj h2).1

theorem hashBlock_ne_empty (c : CBlock) : hashBlock c ≠ "" := by
  simp [hashBlock, String.ext_iff]

/-! ### Field-lookup facts for canonical stored blocks -/

theorem dget_blockFields_index (c : CBlock) (h : String) :
    dget (blockFields c h) "index" = some (JVal.vint c.index) := rfl

theorem dget_blockFields_timestamp (c : CBlock) (h : String) :
    dget (blockFields c h) "timestamp" = some (JVal.vfloat c.timestamp) := rfl

theorem dget_blockFields_prev (c : CBlock) (h : String) :
    dget (blockFields c h) "prev_hash" = some (JVal.vstr c.prevHash) := rfl

theorem pyGet_blockFields_hash (c : CBlock) (h : String) :
    pyGet (blockFields c h) "hash" = some (JVal.vstr h) := rfl

theorem dget_blockFields_organ (c : CBlock) (h : String) :
    dget (blockFields c h) "organ" = some (JVal.vstr c.organ) := rfl

theorem dget_blockFields_tier (c : CBlock) (h : String) :
    dget (blockFields c h) "tier" = some (JVal.vstr c.tier) := rfl

theorem dget_blockFields_hash (c : CBlock) (h : String) :
    dget (blockFields c h) "hash" = some (JVal.vstr h) := rfl

theorem mapLegacyFields_blockFields (c : CBlock) (h : String) :
    mapLegacyFields (blockFields c h) = (some c.organ, some c.tier) := rfl

theorem hasKey_blockFields_timestamp (c : CBlock) (h : String) :
    hasKey (blockFields c h) "timestamp" = true := rfl

/-! ### Single-step behavior of the verifier on canonical blocks -/

theorem verifyLoop_cons_block (strict first : Bool) (prevExp : Option String)
    (i : Nat) (c : CBlock) (h : String) (rest : List JVal) :
    verifyLoop strict first prevExp i (blockWithHash c h :: rest) =
      (if first then
        (if h = hashBlock c then verifyLoop strict false (some (hashBlock c)) (i + 1) rest
         else VerifyResult.fail i VReason.tampered)
       else
        match prevExp with
        | none => VerifyResult.fail i VReason.brokenChain
        | some pe =>
          if c.prevHash = pe then
            (if h = hashBlock c then verifyLoop strict false (some (hashBlock c)) (i + 1) rest
             else VerifyResult.fail i VReason.tampered)
          else VerifyResult.fail i VReason.brokenChain) := by
  simp only [blockWithHash, verifyLoop, dget_blockFields_index, dget_blockFields_timestamp,
    dget_blockFields_prev, pyGet_blockFields_hash, mapLegacyFields_blockFields]
  by_cases hf : first
  · by_cases hh : h = hashBlock c <;> simp [hf, hh, pyInt, pyFloat, pyStr]
  · cases prevExp with
    | none => simp [hf, pyInt, pyFloat, pyStr]
    | some pe =>
      by_cases hp : c.prevHash = pe
      · subst hp
        by_cases hh : h = hashBlock c <;> simp [hf, hh, pyInt, pyFloat, pyStr]
      · simp [hf, hp, pyInt, pyFloat, pyStr]

theorem findStart_cons_block (c : CBlock) (h : String) (rest : List JVal) (i : Nat) :
    findStart (blockWithHash c h :: rest) i = some i := rfl

theorem verifyLoop_chainBlocks (strict : Bool) (es : List Entry) (k : Nat) (p : String)
    (rest : List JVal) :
    verifyLoop strict false (some p) k (chainBlocks k p es ++ rest) =
      verifyLoop strict false (some (chainAnchor k p es)) (k + es.length) rest := by
  induction es generalizing k p with
  | nil => simp [chainBlocks, chainAnchor]
  | cons e es ih =>
    obtain ⟨s, c, t⟩ := e
    simp only [chainBlocks, chainAnchor, List.cons_append, blockOfC]
    rw [verifyLoop_cons_block]
    simp only [Bool.false_eq_true, if_false, if_pos rfl]
    rw [ih]
    have harith : k + 1 + es.length = k + (es.length + 1) := by omega
    simp [harith]

theorem chainBlocks_concat (es : List Entry) (k : Nat) (p : String) (e : Entry) :
    chainBlocks k p (es ++ [e]) =
      chainBlocks k p es ++
        [blockOfC ⟨((k + es.length : Nat) : Int), e.1, e.2.1, e.2.2, chainAnchor k p es⟩] := by
  induction es generalizing k p with
  | nil => simp [chainBlocks, chainAnchor]
  | cons f es ih =>
    obtain ⟨s, c, t⟩ := f
    have harith : k + 1 + es.length = k + (es.length + 1) := by omega
    simp only [List.cons_append, chainBlocks, chainAnchor, List.append_eq, ih, harith,
      List.length_cons]

theorem chainAnchor_concat (es : List Entry) (k : Nat) (p : String) (e : Entry) :
    chainAnchor k p (es ++ [e]) =
      hashBlock ⟨((k + es.length : Nat) : Int), e.1, e.2.1, e.2.2, chainAnchor k p es⟩ := by
  induction es generalizing k p with
  | nil => simp [chainAnchor]
  | cons f es ih =>
    obtain ⟨s, c, t⟩ := f
    have harith : k + 1 + es.length = k + (es.length + 1) := by omega
    simp only [List.cons_append, chainAnchor, List.append_eq, ih, harith, List.length_cons]

theorem length_chainBlocks (es : List Entry) (k : Nat) (p : String) :
    (chainBlocks k p es).length = es.length := by
  induction es generalizing k p with
  | nil => rfl
  | cons e es ih => obtain ⟨s, c, t⟩ := e; simp [chainBlocks, ih]

theorem resolvePrevHash_concat (l : List JVal) (c : CBlock) :
    resolvePrevHash (l ++ [blockOfC c]) = hashBlock c := by
  unfold resolvePrevHash
  rw [List.getLast?_concat]
  simp only [blockOfC, blockWithHash, pyGet_blockFields_hash]
  have ht : pyTruthy (JVal.vstr (hashBlock c)) = true := by
    simp [pyTruthy, hashBlock_ne_empty c]
  rw [ht]
  simp [pyStr]

theorem resolvePrevHash_chain (es : List Entry) :
    resolvePrevHash (chainBlocks 0 "GENESIS" es) = chainAnchor 0 "GENESIS" es := by
  induction es using List.reverseRecOn with
  | nil => rfl
  | append_singleton es e _ =>
    rw [chainBlocks_concat, chainAnchor_concat, resolvePrevHash_concat]

theorem buildChain_eq (es : List Entry) :
    buildChain es = chainBlocks 0 "GENESIS" es := by
  induction es using List.reverseRecOn with
  | nil => rfl
  | append_singleton es e ih =>
    obtain ⟨s, c, t⟩ := e
    rw [buildChain, List.foldl_append]
    show appendLedgerEntry (buildChain es) s c t = _
    rw [chainBlocks_concat, ih, appendLedgerEntry, appendBlock, resolvePrevHash_chain,
      length_chainBlocks]
    simp

/-- Claim C1:  For every ledger built solely through `append_ledger_entry`
(starting from an absent or empty ledger store, with any sequence of
subject/category pairs and any clock values), `verify_ledger` with
`strict_hash = true` and `allow_legacy_prefix = true` returns true. -/
theorem append_only_chain_verifies_strict (es : List Entry) :
    (verifyLedger (buildChain es) true true).toBool = true := by
  rw [buildChain_eq]
  cases es with
  | nil => rfl
  | cons e es =>
    obtain ⟨s, c, t⟩ := e
    simp only [chainBlocks, verifyLedger, List.isEmpty_cons, Bool.false_eq_true,
      if_false, if_true, blockOfC]
    rw [findStart_cons_block]
    simp only [List.drop_zero]
    rw [verifyLoop_cons_block]
    simp only [if_pos rfl]
    have := verifyLoop_chainBlocks true es 1 (hashBlock ⟨((0 : Nat) : Int), s, c, t, "GENESIS"⟩) []
    rw [List.append_nil] at this
    rw [this]
    rfl

/-! ### Mutating one block of an append-built chain -/

theorem chainBlocks_middle (es₁ : List Entry) (e : Entry) (es₂ : List Entry)
    (k : Nat) (p : String) :
    chainBlocks k p (es₁ ++ e :: es₂) =
      chainBlocks k p es₁ ++
        blockOfC ⟨((k + es₁.length : Nat) : Int), e.1, e.2.1, e.2.2, chainAnchor k p es₁⟩ ::
          chainBlocks (k + es₁.length + 1)
            (hashBlock ⟨((k + es₁.length : Nat) : Int), e.1, e.2.1, e.2.2, chainAnchor k p es₁⟩)
            es₂ := by
  induction es₁ generalizing k p with
  | nil => simp [chainBlocks, chainAnchor]
  | cons f es₁ ih =>
    obtain ⟨s, c, t⟩ := f
    have harith : k + 1 + es₁.length = k + (es₁.length + 1) := by omega
    simp only [List.cons_append, chainBlocks, chainAnchor, List.append_eq, ih, harith,
      List.length_cons]

theorem verifyLedger_mut (strict : Bool) (es : List Entry) (cb : CBlock) (h' : String)
    (rest : List JVal) (hprev : cb.prevHash = chainAnchor 0 "GENESIS" es) :
    verifyLedger (chainBlocks 0 "GENESIS" es ++ blockWithHash cb h' :: rest) strict true =
      (if h' = hashBlock cb then
        verifyLoop strict false (some (hashBlock cb)) (es.length + 1) rest
       else VerifyResult.fail es.length VReason.tampered) := by
  cases es with
  | nil =>
    simp only [chainBlocks, List.nil_append, verifyLedger, List.isEmpty_cons,
      Bool.false_eq_true, if_false, if_true]
    rw [findStart_cons_block]
    simp only [List.drop_zero]
    rw [verifyLoop_cons_block]
    simp only [if_pos rfl, List.length_nil]
    simp
  | cons f es' =>
    obtain ⟨s, c, t⟩ := f
    simp only [chainBlocks, chainAnchor, List.cons_append, blockOfC, verifyLedger,
      List.isEmpty_cons, Bool.false_eq_true, if_false, if_true] at hprev ⊢
    rw [findStart_cons_block]
    simp only [List.drop_zero]
    rw [verifyLoop_cons_block]
    simp only [if_pos rfl]
    rw [show (0 : Nat) + 1 = 1 from rfl] at *
    rw [verifyLoop_chainBlocks]
    rw [verifyLoop_cons_block]
    simp only [Bool.false_eq_true, if_false, hprev, if_pos rfl, List.length_cons]
    have harith : 1 + es'.length = es'.length + 1 := by omega
    simp [harith]

/-- Claim C2 counterexample:  The claim "mutating any one field of a
block (including timestamp) and recomputing that block's hash causes
verify to return false at that exact index" fails at a concrete
instance: a valid one-block chain (built by
`append_entry("sentinel","P0")` at clock 1) whose single (and last)
block has its timestamp changed to 2 with the hash recomputed still
verifies as true — head-of-chain tampering with a recomputed hash is
undetectable. -/
theorem verify_mutated_head_counterexample :
    verifyLedger [blockOfC ⟨(0 : Int), "sentinel", "P0", 1, "GENESIS"⟩] false true =
      VerifyResult.valid ∧
    verifyLedger [blockOfC ⟨(0 : Int), "sentinel", "P0", 2, "GENESIS"⟩] false true =
      VerifyResult.valid := ⟨rfl, rfl⟩

/-- Claim C2 amended:  On a chain built solely through
`append_ledger_entry` (prefix entries `es₁`, the block under attack
with content `origCB es₁ s c t` at position `i = es₁.length`, suffix
entries `es₂`): (1) the stored chain decomposes around the attacked
block as stated; (2) altering that block's stored hash alone, to any
string different from the recomputed hash, makes `verify` fail exactly
at index `i`, reporting tampering; (3) mutating the block's canonical
content (index, subject, category and/or timestamp — keeping its
`prev_hash` link) and recomputing its stored hash makes `verify` fail
at index `i + 1` with a broken chain when the block is not the last
one, while for the last block `verify` still returns true. -/
theorem verify_tamper_detection (es₁ es₂ : List Entry) (s c : String) (t : Rat) :
    chainBlocks 0 "GENESIS" (es₁ ++ (s, c, t) :: es₂) =
      chainBlocks 0 "GENESIS" es₁ ++
        blockOfC (origCB es₁ s c t) ::
          chainBlocks (es₁.length + 1) (hashBlock (origCB es₁ s c t)) es₂ ∧
    (∀ h', h' ≠ hashBlock (origCB es₁ s c t) →
      verifyLedger (chainBlocks 0 "GENESIS" es₁ ++
          blockWithHash (origCB es₁ s c t) h' ::
            chainBlocks (es₁.length + 1) (hashBlock (origCB es₁ s c t)) es₂) false true =
        VerifyResult.fail es₁.length VReason.tampered) ∧
    (∀ cb' : CBlock, cb'.prevHash = chainAnchor 0 "GENESIS" es₁ →
        cb' ≠ origCB es₁ s c t →
      (es₂ = [] →
        verifyLedger (chainBlocks 0 "GENESIS" es₁ ++ [blockOfC cb']) false true =
          VerifyResult.valid) ∧
      (es₂ ≠ [] →
        verifyLedger (chainBlocks 0 "GENESIS" es₁ ++
            blockOfC cb' ::
              chainBlocks (es₁.length + 1) (hashBlock (origCB es₁ s c t)) es₂) false true =
          VerifyResult.fail (es₁.length + 1) VReason.brokenChain)) := by
  refine ⟨?_, ?_, ?_⟩
  · have := chainBlocks_middle es₁ (s, c, t) es₂ 0 "GENESIS"
    simpa [origCB] using this
  · intro h' hne
    rw [verifyLedger_mut false es₁ (origCB es₁ s c t) h' _ rfl]
    rw [if_neg hne]
  · intro cb' hp hne
    constructor
    · intro h2
      subst h2
      rw [show [blockOfC cb'] = blockWithHash cb' (hashBlock cb') :: ([] : List JVal) from rfl]
      rw [verifyLedger_mut false es₁ cb' _ _ hp]
      simp [verifyLoop]
    · intro h2
      cases es₂ with
      | nil => exact absurd rfl h2
      | cons f fs =>
        obtain ⟨s2, c2, t2⟩ := f
        simp only [chainBlocks]
        rw [show blockOfC cb' = blockWithHash cb' (hashBlock cb') from rfl]
        rw [verifyLedger_mut false es₁ cb' _ _ hp]
        rw [if_pos rfl]
        rw [show blockOfC ⟨((es₁.length + 1 : Nat) : Int), s2, c2, t2,
              hashBlock (origCB es₁ s c t)⟩ =
            blockWithHash ⟨((es₁.length + 1 : Nat) : Int), s2, c2, t2,
              hashBlock (origCB es₁ s c t)⟩
              (hashBlock ⟨((es₁.length + 1 : Nat) : Int), s2, c2, t2,
                hashBlock (origCB es₁ s c t)⟩) from rfl]
        rw [verifyLoop_cons_block]
        have hneq : ¬ (hashBlock (origCB es₁ s c t) = hashBlock cb') :=
          fun hcon => hne (hashBlock_injective hcon).symm
        simp [hneq]

/-- Witness for `verify_tamper_detection` at a concrete two-entry
instance: altering the stored hash of the block at position 1 to
`"XX"` is reported as tampering at index 1, and mutating the last
block's subject with a recomputed hash goes undetected. -/
theorem verify_tamper_detection_witness :
    verifyLedger (chainBlocks 0 "GENESIS" [("a", "b", (1 : Rat))] ++
        blockWithHash (origCB [("a", "b", (1 : Rat))] "s" "c" 2) "XX" ::
          chainBlocks 2 (hashBlock (origCB [("a", "b", (1 : Rat))] "s" "c" 2)) []) false true =
      VerifyResult.fail 1 VReason.tampered ∧
    verifyLedger (chainBlocks 0 "GENESIS" [("a", "b", (1 : Rat))] ++
        [blockOfC ⟨(1 : Int), "s2", "c", 2, chainAnchor 0 "GENESIS" [("a", "b", (1 : Rat))]⟩])
        false true = VerifyResult.valid := by
  refine ⟨?_, ?_⟩
  · exact (verify_tamper_detection [("a", "b", 1)] [] "s" "c" 2).2.1 "XX" (by decide)
  · exact ((verify_tamper_detection [("a", "b", 1)] [] "s" "c" 2).2.2
      ⟨(1 : Int), "s2", "c", 2, chainAnchor 0 "GENESIS" [("a", "b", 1)]⟩ rfl (by decide)).1 rfl

/-- Claim C3 counterexample:  In the spec's legacy-prefix scenario the
claim says `verify(allow_legacy_prefix=false)` returns false; in the
code it returns true: the legacy record's subject and category resolve
through the fallback key names and its missing stored hash is accepted
because `strict_hash` defaults to false, so the `allow_legacy_prefix`
flag makes no difference here. -/
theorem legacy_scenario_counterexample :
    (verifyLedger ledgerLegacyScenario false false).toBool = true := by
  rfl

/-- Claim C3 amended:  For the stored ledger of one legacy record
`{"name": "audit_log", "priority": "P1", "timestamp": 1000.0}` followed
by one canonical record whose `prev_hash` is the legacy record's
derived hash: `verify(allow_legacy_prefix=true)` returns true, and
`verify(allow_legacy_prefix=false)` returns true as well (the legacy
record is mappable, so under the default non-strict hash mode both
configurations accept the chain). -/
theorem legacy_scenario_verifies :
    (verifyLedger ledgerLegacyScenario false true).toBool = true ∧
    (verifyLedger ledgerLegacyScenario false false).toBool = true := ⟨rfl, rfl⟩

/-! ### Migration on canonical chains -/

theorem migrateScan_chain (es : List Entry) (k : Nat) (p : String) (i : Nat) :
    migrateScan (chainBlocks k p es) i = ([], chainBlocks k p es) := by
  induction es generalizing k p i with
  | nil => rfl
  | cons e es ih =>
    obtain ⟨s, c, t⟩ := e
    simp only [chainBlocks, migrateScan, blockOfC, blockWithHash, ih,
      mapLegacyFields_blockFields, hasKey_blockFields_timestamp]
    rfl

theorem migrateRewrite_chain (es : List Entry) (k : Nat) (p : String) :
    migrateRewrite (chainBlocks k p es) k p = Except.ok (chainBlocks k p es, 0) := by
  induction es generalizing k p with
  | nil => rfl
  | cons e es ih =>
    obtain ⟨s, c, t⟩ := e
    simp only [chainBlocks, migrateRewrite, blockOfC, blockWithHash,
      mapLegacyFields_blockFields, dget_blockFields_index, dget_blockFields_timestamp,
      dget_blockFields_prev, dget_blockFields_organ, dget_blockFields_tier,
      dget_blockFields_hash, ih]
    simp [pyEqInt, pyEqStr, pyFloat, ih]

/-- Claim C4 counterexample:  The claim's hypothesis — dense indices
from 0, correctly linked `prev_hash`, stored hash equal to the
recomputed canonical hash — is satisfied by a one-block ledger whose
subject and category live under the legacy keys `name`/`priority`; yet
`migrate` reports `modified_count = 1` (it renames the keys), not 0. -/
theorem migrate_idempotence_counterexample :
    denseLinkedHashOk [legacyKeyedBlock] = true ∧
    (migrateFS true ⟨Store.val (JVal.varr [legacyKeyedBlock]), Store.absent,
        Store.absent⟩).2 = Except.ok (1, 0, 1) := ⟨rfl, rfl⟩

/-- Claim C4 amended:  `migrate` is idempotent on an already-canonical
chain *stored in canonical form* — i.e. on any chain built solely
through `append_ledger_entry` (dense indices from 0, linked
`prev_hash`, correct stored hash, subject/category stored as strings
under the canonical keys): it reports `modified_count = 0` and
`quarantined_count = 0`. -/
theorem migrate_idempotent_on_canonical (es : List Entry) (b : Bool) (q bk : Store) :
    (migrateFS b ⟨Store.val (JVal.varr (chainBlocks 0 "GENESIS" es)), q, bk⟩).2 =
      Except.ok (0, 0, es.length) := by
  cases es with
  | nil => rfl
  | cons e es =>
    obtain ⟨s, c, t⟩ := e
    show (migrateFS b _).2 = _
    unfold migrateFS
    simp only [loadLedger]
    rw [show chainBlocks 0 "GENESIS" ((s, c, t) :: es) =
      blockOfC ⟨((0 : Nat) : Int), s, c, t, "GENESIS"⟩ ::
        chainBlocks 1 (hashBlock ⟨((0 : Nat) : Int), s, c, t, "GENESIS"⟩) es from rfl]
    rw [show (blockOfC ⟨((0 : Nat) : Int), s, c, t, "GENESIS"⟩ ::
        chainBlocks 1 (hashBlock ⟨((0 : Nat) : Int), s, c, t, "GENESIS"⟩) es).isEmpty = false
      from rfl]
    have hscan := migrateScan_chain ((s, c, t) :: es) 0 "GENESIS" 0
    rw [show chainBlocks 0 "GENESIS" ((s, c, t) :: es) =
      blockOfC ⟨((0 : Nat) : Int), s, c, t, "GENESIS"⟩ ::
        chainBlocks 1 (hashBlock ⟨((0 : Nat) : Int), s, c, t, "GENESIS"⟩) es from rfl] at hscan
    rw [hscan]
    have hrw := migrateRewrite_chain ((s, c, t) :: es) 0 "GENESIS"
    rw [show chainBlocks 0 "GENESIS" ((s, c, t) :: es) =
      blockOfC ⟨((0 : Nat) : Int), s, c, t, "GENESIS"⟩ ::
        chainBlocks 1 (hashBlock ⟨((0 : Nat) : Int), s, c, t, "GENESIS"⟩) es from rfl] at hrw
    simp only [List.isEmpty_cons, Bool.false_eq_true, if_false, hrw]
    simp [length_chainBlocks]

/-- Claim C5:  Migration never removes a previously quarantined record:
for every prior state and every input, the quarantine store's records
after `migrate` are exactly the prior records followed by the newly
quarantined ones (append-only; `migrateNewQuarantine` is empty when
the ledger is empty or unreadable). -/
theorem migrate_quarantine_append_only (b : Bool) (fs : FS) :
    loadJsonList ((migrateFS b fs).1).quarantine =
      loadJsonList fs.quarantine ++ migrateNewQuarantine fs := by
  unfold migrateFS migrateNewQuarantine
  cases hload : loadLedger fs.ledger with
  | error e => simp
  | ok l =>
    by_cases hemp : l.isEmpty
    · simp [hemp]
    · simp only [hemp, Bool.false_eq_true, if_false]
      rcases hqc : migrateScan l 0 with ⟨q, c⟩
      simp only [hqc]
      by_cases hqe : q.isEmpty
      · obtain rfl : q = [] := List.isEmpty_iff.mp hqe
        by_cases hce : c.isEmpty <;>
          cases hmr : migrateRewrite c 0 "GENESIS" <;>
            (simp [hqe, hce, hmr]; try (split <;> rfl))
      · by_cases hce : c.isEmpty <;>
          cases hmr : migrateRewrite c 0 "GENESIS" <;>
            (simp [hqe, hce, hmr]; try (split <;> rfl))

theorem migrateScan_allQuarantine : ∀ (l : List JVal) (i : Nat),
    (∀ x ∈ l, quarantineCond x = true) →
    (migrateScan l i).1.length = l.length ∧ (migrateScan l i).2 = [] := by
  intro l
  induction l with
  | nil => intro i _; exact ⟨rfl, rfl⟩
  | cons x xs ih =>
    intro i h
    have hx := h x (List.mem_cons_self x xs)
    obtain ⟨h1, h2⟩ := ih (i + 1) (fun y hy => h y (List.mem_cons_of_mem x hy))
    rcases hqc : migrateScan xs (i + 1) with ⟨q, c⟩
    rw [hqc] at h1 h2
    cases x with
    | vobj f =>
      simp only [quarantineCond] at hx
      simp only [migrateScan, hqc, hx, if_true]
      simpa using ⟨h1, h2⟩
    | vnull => simp only [migrateScan, hqc]; simpa using ⟨h1, h2⟩
    | vbool v => simp only [migrateScan, hqc]; simpa using ⟨h1, h2⟩
    | vint v => simp only [migrateScan, hqc]; simpa using ⟨h1, h2⟩
    | vfloat v => simp only [migrateScan, hqc]; simpa using ⟨h1, h2⟩
    | vstr v => simp only [migrateScan, hqc]; simpa using ⟨h1, h2⟩
    | varr v => simp only [migrateScan, hqc]; simpa using ⟨h1, h2⟩

/-- Claim C6:  When the loaded ledger is non-empty and every record
fails the minimum-fields test (the migrator's quarantine condition:
non-dict, or unresolvable subject/category, or missing timestamp),
`migrate` returns `(0, n, n)` and leaves the active ledger store in
its prior state — it never replaces it with an empty chain. -/
theorem migrate_no_candidates_preserves_ledger (fs : FS) (b : Bool) (l : List JVal)
    (hl : loadLedger fs.ledger = Except.ok l) (hne : l ≠ [])
    (hall : ∀ x ∈ l, quarantineCond x = true) :
    (migrateFS b fs).2 = Except.ok (0, l.length, l.length) ∧
    ((migrateFS b fs).1).ledger = fs.ledger := by
  have hemp : l.isEmpty = false := by
    cases l with
    | nil => exact absurd rfl hne
    | cons x xs => rfl
  obtain ⟨h1, h2⟩ := migrateScan_allQuarantine l 0 hall
  rcases hqc : migrateScan l 0 with ⟨q, c⟩
  rw [hqc] at h1 h2
  subst h2
  have h1' : q.length = l.length := h1
  unfold migrateFS
  rw [hl]
  simp only [hemp, Bool.false_eq_true, if_false, hqc, List.isEmpty_nil, if_true, h1']
  constructor
  · trivial
  · by_cases hqe : q.isEmpty <;> (simp [hqe]; try (split <;> rfl))

/-- Witness for `migrate_no_candidates_preserves_ledger`: a one-record
ledger holding a bare string is fully quarantined, the result is
`(0, 1, 1)`, and the active store is untouched. -/
theorem migrate_no_candidates_witness :
    (migrateFS true ⟨Store.val (JVal.varr [JVal.vstr "junk"]), Store.absent,
        Store.absent⟩).2 = Except.ok (0, 1, 1) ∧
    ((migrateFS true ⟨Store.val (JVal.varr [JVal.vstr "junk"]), Store.absent,
        Store.absent⟩).1).ledger = Store.val (JVal.varr [JVal.vstr "junk"]) := by
  have h := migrate_no_candidates_preserves_ledger
    ⟨Store.val (JVal.varr [JVal.vstr "junk"]), Store.absent, Store.absent⟩ true
    [JVal.vstr "junk"] rfl (by simp) (by decide)
  exact h

/-- Claim C10:  `migrate` on an empty (or absent) ledger returns
`(0, 0, 0)` and performs no mutation at all: the returned state is the
input state — no backup is written even when `backup = true`, and
neither the active ledger store nor the quarantine store is touched. -/
theorem migrate_empty_noop (fs : FS) (b : Bool)
    (hl : loadLedger fs.ledger = Except.ok []) :
    migrateFS b fs = (fs, Except.ok (0, 0, 0)) := by
  unfold migrateFS
  rw [hl]
  rfl

/-- Witness for `migrate_empty_noop` on an absent ledger file with
`backup = true`. -/
theorem migrate_empty_noop_witness :
    migrateFS true ⟨Store.absent, Store.absent, Store.absent⟩ =
      (⟨Store.absent, Store.absent, Store.absent⟩, Except.ok (0, 0, 0)) :=
  migrate_empty_noop ⟨Store.absent, Store.absent, Store.absent⟩ true rfl

/-- Claim C7:  On every loadable chain `l`, `append_ledger_entry`
persists exactly the old chain followed by one new block — the new
block stores `index = |l|`, the given subject and category, the
current timestamp, the resolved `prev_hash` and its computed hash —
and the other stores and all pre-existing records are unchanged. -/
theorem append_appends_one_block (fs : FS) (l : List JVal) (organ tier : String) (ts : Rat)
    (hl : loadLedger fs.ledger = Except.ok l) :
    ∃ fb : List (String × JVal),
      appendFS organ tier ts fs =
        Except.ok { fs with ledger := Store.val (JVal.varr (l ++ [JVal.vobj fb])) } ∧
      dget fb "index" = some (JVal.vint (l.length : Int)) ∧
      dget fb "organ" = some (JVal.vstr organ) ∧
      dget fb "tier" = some (JVal.vstr tier) ∧
      dget fb "timestamp" = some (JVal.vfloat ts) ∧
      dget fb "prev_hash" = some (JVal.vstr (resolvePrevHash l)) ∧
      dget fb "hash" = some (JVal.vstr
        (hashBlock ⟨(l.length : Int), organ, tier, ts, resolvePrevHash l⟩)) := by
  refine ⟨blockFields ⟨(l.length : Int), organ, tier, ts, resolvePrevHash l⟩
    (hashBlock ⟨(l.length : Int), organ, tier, ts, resolvePrevHash l⟩),
    ?_, rfl, rfl, rfl, rfl, rfl, rfl⟩
  unfold appendFS
  rw [hl]
  rfl

/-- Witness for `append_appends_one_block`: one append onto the empty
(absent) store yields exactly one block with `index = 0` and
`prev_hash = "GENESIS"`. -/
theorem append_appends_one_block_witness :
    ∃ fb : List (String × JVal),
      appendFS "sentinel" "P0" 1 ⟨Store.absent, Store.absent, Store.absent⟩ =
        Except.ok { ledger := Store.val (JVal.varr ([] ++ [JVal.vobj fb])),
                    quarantine := Store.absent, backup := Store.absent } ∧
      dget fb "index" = some (JVal.vint 0) ∧
      dget fb "organ" = some (JVal.vstr "sentinel") ∧
      dget fb "tier" = some (JVal.vstr "P0") ∧
      dget fb "timestamp" = some (JVal.vfloat 1) ∧
      dget fb "prev_hash" = some (JVal.vstr "GENESIS") ∧
      dget fb "hash" = some (JVal.vstr
        (hashBlock ⟨(0 : Int), "sentinel", "P0", 1, "GENESIS"⟩)) :=
  append_appends_one_block ⟨Store.absent, Store.absent, Store.absent⟩ [] "sentinel" "P0" 1 rfl

/-- Claim C8:  `load` fails (with the `MalformedLedgerError` condition)
exactly when the stored content is present but either not valid JSON
or not a list at the top level; an absent file is the empty ledger;
and a load failure propagates to `append`, `verify` and `migrate`. -/
theorem load_malformed_exactly (st : Store) :
    (loadLedger st = Except.error () ↔
      st = Store.malformed ∨ ∃ v, st = Store.val v ∧ ∀ l, v ≠ JVal.varr l) ∧
    loadLedger Store.absent = Except.ok [] ∧
    (loadLedger st = Except.error () →
      ∀ (organ tier : String) (ts : Rat) (q bk : Store) (strict al b : Bool),
        appendFS organ tier ts ⟨st, q, bk⟩ = Except.error () ∧
        verifyFS strict al ⟨st, q, bk⟩ = Except.error () ∧
        (migrateFS b ⟨st, q, bk⟩).2 = Except.error ()) := by
  refine ⟨⟨?_, ?_⟩, rfl, ?_⟩
  · intro herr
    cases st with
    | absent => simp [loadLedger] at herr
    | malformed => exact Or.inl rfl
    | val v =>
      refine Or.inr ⟨v, rfl, ?_⟩
      intro l hl
      subst hl
      simp [loadLedger] at herr
  · intro h
    rcases h with h | ⟨v, rfl, hv⟩
    · subst h; rfl
    · cases v with
      | varr l => exact absurd rfl (hv l)
      | vnull => rfl
      | vbool b => rfl
      | vint n => rfl
      | vfloat q => rfl
      | vstr s => rfl
      | vobj f => rfl
  · intro herr organ tier ts q bk strict al b
    refine ⟨?_, ?_, ?_⟩
    · unfold appendFS; rw [show (⟨st, q, bk⟩ : FS).ledger = st from rfl, herr]
    · unfold verifyFS; rw [show (⟨st, q, bk⟩ : FS).ledger = st from rfl, herr]
    · unfold migrateFS; rw [show (⟨st, q, bk⟩ : FS).ledger = st from rfl, herr]

/-- Witness for `load_malformed_exactly` at a malformed store. -/
theorem load_malformed_witness :
    loadLedger Store.malformed = Except.error () ∧
    appendFS "a" "b" 1 ⟨Store.malformed, Store.absent, Store.absent⟩ = Except.error () ∧
    verifyFS false true ⟨Store.malformed, Store.absent, Store.absent⟩ = Except.error () ∧
    (migrateFS true ⟨Store.malformed, Store.absent, Store.absent⟩).2 = Except.error () := by
  have h := load_malformed_exactly Store.malformed
  have herr : loadLedger Store.malformed = Except.error () := h.1.mpr (Or.inl rfl)
  obtain ⟨ha, hv, hm⟩ := h.2.2 herr "a" "b" 1 Store.absent Store.absent false true true
  exact ⟨herr, ha, hv, hm⟩

theorem resolveFromLegacy_genesis (len : Nat) (f : List (String × JVal))
    (hdisj : ((mapLegacyFields f).1.isNone || (mapLegacyFields f).2.isNone ||
       (match dget f "index" with
        | none => false
        | some v => (pyInt v).isNone) ||
       (match dget f "timestamp" with
        | none => true
        | some v => (pyFloat v).isNone)) = true) :
    resolvePrevHash.resolveFromLegacy len f = "GENESIS" := by
  unfold resolvePrevHash.resolveFromLegacy
  rcases hom : mapLegacyFields f with ⟨o?, t?⟩
  rw [hom] at hdisj
  cases hidx : dget f "index" with
  | none =>
    cases hts : dget f "timestamp" with
    | none => simp [hidx, hts]
    | some tv =>
      cases hpf : pyFloat tv with
      | none => simp [hidx, hts, hpf]
      | some tsv =>
        simp only [hidx, hts, hpf, Option.isNone_some, Bool.or_false] at hdisj
        simp only [hidx, hts, hpf, hom]
        cases o? <;> cases t? <;> simp_all
  | some v =>
    cases hpi : pyInt v with
    | none => simp [hidx, hpi]
    | some iv =>
      cases hts : dget f "timestamp" with
      | none => simp [hidx, hpi, hts]
      | some tv =>
        cases hpf : pyFloat tv with
        | none => simp [hidx, hpi, hts, hpf]
        | some tsv =>
          simp only [hidx, hpi, hts, hpf, Option.isNone_some, Bool.or_false] at hdisj
          simp only [hidx, hpi, hts, hpf, hom]
          cases o? <;> cases t? <;> simp_all

/-- Claim C9:  `append_ledger_entry` never raises on a ledger that loads
as a list: it always persists successfully.  Moreover, whenever the
last record is not an object, or its stored hash is absent/falsy and
its fields cannot be mapped or its `index`/`timestamp` conversion
raises, the resolved `prev_hash` silently falls back to `"GENESIS"`
and the appended block carries `prev_hash = "GENESIS"`. -/
theorem append_never_raises (l : List JVal) (organ tier : String) (ts : Rat) (q bk : Store) :
    (∃ fs', appendFS organ tier ts ⟨Store.val (JVal.varr l), q, bk⟩ = Except.ok fs') ∧
    (appendFallbackCond l = true →
      resolvePrevHash l = "GENESIS" ∧
      appendBlock l organ tier ts =
        blockOfC ⟨(l.length : Int), organ, tier, ts, "GENESIS"⟩) := by
  constructor
  · exact ⟨_, rfl⟩
  · intro hcond
    have hres : resolvePrevHash l = "GENESIS" := by
      unfold appendFallbackCond at hcond
      unfold resolvePrevHash
      cases hlast : l.getLast? with
      | none => rfl
      | some last =>
        rw [hlast] at hcond
        cases last with
        | vobj f =>
          simp only [Bool.and_eq_true] at hcond
          obtain ⟨hfalsy, hdisj⟩ := hcond
          show (match pyGet f "hash" with
                | some v => if pyTruthy v = true then pyStr v
                            else resolvePrevHash.resolveFromLegacy l.length f
                | none => resolvePrevHash.resolveFromLegacy l.length f) = "GENESIS"
          cases hh : pyGet f "hash" with
          | none => exact resolveFromLegacy_genesis l.length f hdisj
          | some v =>
            have hf : pyTruthy v = false := by rw [hh] at hfalsy; simpa using hfalsy
            simp only [hf, Bool.false_eq_true, if_false]
            exact resolveFromLegacy_genesis l.length f hdisj
        | vnull => rfl
        | vbool b => rfl
        | vint n => rfl
        | vfloat qq => rfl
        | vstr s => rfl
        | varr a => rfl
    exact ⟨hres, by rw [appendBlock, hres]⟩

/-- Witness for `append_never_raises`: appending onto a ledger whose
last record is a bare string succeeds and links from `"GENESIS"`. -/
theorem append_never_raises_witness :
    (∃ fs', appendFS "a" "b" 1 ⟨Store.val (JVal.varr [JVal.vstr "x"]), Store.absent,
        Store.absent⟩ = Except.ok fs') ∧
    (resolvePrevHash [JVal.vstr "x"] = "GENESIS" ∧
      appendBlock [JVal.vstr "x"] "a" "b" 1 =
        blockOfC ⟨(1 : Int), "a", "b", 1, "GENESIS"⟩) := by
  have h := append_never_raises [JVal.vstr "x"] "a" "b" 1 Store.absent Store.absent
  exact ⟨h.1, h.2 (by decide)⟩

end Veil
